import Mathlib

/-
Verification of the thrift2flow type- and declaration-mapping engine
(src/main/types.js and src/main/convert.js) against its specification.

The embedding is shallow and executable:

* `ThriftType` mirrors the thriftrw AST nodes the converter distinguishes
  (`BaseType`, `Identifier`, `ListType`, `SetType`, `MapType`); `Definition`
  mirrors the top-level definition kinds dispatched on in convert.js.
* JS `undefined` arguments are modelled with `Option`; a thrown `TypeError`
  is modelled with `Except.error ()`.  This matters because every call site
  of `TypeConverter#convert` in convert.js passes a single argument, leaving
  `allDefinitions` undefined, and `isEnum` then evaluates
  `allDefinitions.find(...)` on `undefined`.
* Strings are rendered exactly as the source templates do.  In the Lean
  string literals below, the characters left brace, right brace and single
  quote are written with the escapes \x7b, \x7d and \x27.
-/

/-- The base-type tags thriftrw produces for primitive `BaseType` nodes;
exactly the keys of `TypeConverter.primitives` in types.js. -/
inductive BaseTag where
  | binary
  | bool
  | byte
  | i8
  | i16
  | i32
  | i64
  | double
  | string
  | void
deriving DecidableEq, Repr

/-- A thriftrw type-reference node, as types.js distinguishes them:
a primitive `BaseType` (with its annotation map), a named `Identifier`
reference, a `ListType`/`SetType`, or a `MapType`.  Only `Identifier`
nodes carry a `name` property; only `BaseType` nodes carry `baseType`. -/
inductive ThriftType where
  | base (tag : BaseTag) (annotations : List (String × String))
  | identifier (name : String)
  | list (valueType : ThriftType)
  | set (valueType : ThriftType)
  | map (keyType valueType : ThriftType)
deriving DecidableEq, Repr

/-- The JS value of `t.name`: defined on `Identifier` nodes, `undefined`
(`none`) on every other node shape. -/
def ThriftType.jsName : ThriftType → Option String
  | ThriftType.identifier n => some n
  | _ => none

/-- A struct/exception/union field or a service-function parameter:
`(name, optional flag, declared type)`.  convert.js reads exactly
`f.name`, `f.optional` (via `isOptional`) and `f.valueType`. -/
structure FieldDef where
  name : String
  optional : Bool
  valueType : ThriftType
deriving DecidableEq, Repr

/-- One enum member: `d.id.name` and the optional explicit value node
`d.value` (whose `value` is the literal integer). -/
structure EnumMember where
  name : String
  value : Option Int
deriving DecidableEq, Repr

/-- One service function: `fn.id.name`, `fn.fields`, `fn.returns`. -/
structure FunctionDef where
  name : String
  fields : List FieldDef
  returns : ThriftType
deriving DecidableEq, Repr

/-- The literal value of a `Const` definition as generateConst inspects it:
either a JS string (`typeof def.value.value === 'string'`) or any other
literal, kept as the text its template interpolation produces. -/
inductive ConstLiteral where
  | str (value : String)
  | other (text : String)
deriving DecidableEq, Repr

/-- A top-level thriftrw definition, one constructor per `def.type` kind
convert.js dispatches on, plus `unknown` for every other kind (the
`default:` branch).  Parsed definitions always carry an `id`; the
`Option` on `unknown`'s name models the defensive `def.id ? def.id.name
: '?'` in the warning. -/
inductive Definition where
  | struct (name : String) (fields : List FieldDef)
  | exception (name : String) (fields : List FieldDef)
  | union (name : String) (fields : List FieldDef)
  | enum (name : String) (members : List EnumMember)
  | typedef (name : String) (valueType : ThriftType)
  | service (name : String) (functions : List FunctionDef)
  | const (name : String) (fieldType : ThriftType) (value : ConstLiteral)
  | unknown (kindName : String) (idName : Option String)
deriving DecidableEq, Repr

/-- The JS value of `value.id.name` used by `isEnum`'s lookup. -/
def Definition.defName : Definition → Option String
  | Definition.struct n _ => some n
  | Definition.exception n _ => some n
  | Definition.union n _ => some n
  | Definition.enum n _ => some n
  | Definition.typedef n _ => some n
  | Definition.service n _ => some n
  | Definition.const n _ _ => some n
  | Definition.unknown _ i => i

/-- `defValueType instanceof Enum` in types.js `isEnum`. -/
def Definition.isEnumDef : Definition → Bool
  | Definition.enum _ _ => true
  | _ => false

/-- types.js `TypeConverter`: it is constructed with only the
name-transform (convert.js line 53 passes a single argument). -/
structure TypeConverter where
  transformName : String → String

/-- types.js static `TypeConverter.primitives` lookup table.  It is total
on the base-type tags thriftrw produces. -/
def TypeConverter.primitives : BaseTag → String
  | BaseTag.binary => "Buffer"
  | BaseTag.bool => "boolean"
  | BaseTag.byte => "number"
  | BaseTag.i8 => "number"
  | BaseTag.i16 => "number"
  | BaseTag.i32 => "number"
  | BaseTag.i64 => "Buffer"
  | BaseTag.double => "number"
  | BaseTag.string => "string"
  | BaseTag.void => "void"

/-- types.js static `TypeConverter.i64Mappings`: `none` models the
`undefined` an unrecognised key yields. -/
def TypeConverter.i64Mappings : String → Option String
  | "Long" => some "Long"
  | "Date" => some "Date"
  | _ => none

/-- The JS value of `t.annotations && t.annotations['js.type']` (objects
have unique keys, so the first assoc-list match is the lookup). -/
def jsTypeOf (anns : List (String × String)) : Option String :=
  (anns.find? (fun kv => kv.fst == "js.type")).map (fun kv => kv.snd)

/-- types.js `annotation(t)`: the mapped alias for an i64 whose `js.type`
annotation is recognised; `none` models both the falsy `''` return and
the `undefined` of an unrecognised mapping, each of which lets the `||`
chain in `convert` fall through. -/
def annotationRule (tag : BaseTag) (anns : List (String × String)) : Option String :=
  if tag = BaseTag.i64 then
    match jsTypeOf anns with
    | some js => if js = "" then none else TypeConverter.i64Mappings js
    | none => none
  else none

/-- The lookup inside types.js `isEnum` when a definition list is present:
`allDefinitions.find(value => value.id.name === defName)` followed by
`defValueType && defValueType instanceof Enum`. -/
def isEnumLookup (defs : List Definition) (defName : Option String) : Bool :=
  match defs.find? (fun d => d.defName == defName) with
  | some d => d.isEnumDef
  | none => false

/-- types.js `isEnum(def, allDefinitions)` as called from JS: when the
`allDefinitions` argument is `undefined` (`none`) — which is what every
convert.js call site supplies — `allDefinitions.find` throws a TypeError,
modelled by `Except.error ()`. -/
def isEnumJs (defsArg : Option (List Definition)) (defName : Option String) :
    Except Unit Bool :=
  match defsArg with
  | none => Except.error ()
  | some defs => Except.ok (isEnumLookup defs defName)

/-- types.js `convert = (t, allDefinitions) => this.arrayType(t, allDefinitions)
|| this.enumType(t, allDefinitions) || this.mapType(t, allDefinitions) ||
this.annotation(t) || TypeConverter.primitives[t.baseType] ||
this.transformName(t.name)`, with the `allDefinitions` argument possibly
missing (`defsArg = none`).  The `||` chain is realised per node shape:

* list/set: `arrayType` is truthy; its template recurses into the element.
* map: `enumType` runs before `mapType`; a `MapType` has no `name`, so
  `isEnum` is falsy, but it still dereferences `allDefinitions`
  (throwing when undefined) before `mapType` renders.
* identifier: `enumType` decides between the keys-of rendering and —
  after `mapType` (null), `annotation` (`''`, no `baseType`) and the
  primitives lookup (`undefined`) all fall through — the
  `transformName(t.name)` fallback.
* base: `enumType` dereferences `allDefinitions` (no `name`, falsy),
  then `annotation` and the primitives table decide. -/
def TypeConverter.convertJs (tc : TypeConverter) (defsArg : Option (List Definition)) :
    ThriftType → Except Unit String
  | ThriftType.list v => do
      let e ← tc.convertJs defsArg v
      pure (e ++ "[]")
  | ThriftType.set v => do
      let e ← tc.convertJs defsArg v
      pure (e ++ "[]")
  | ThriftType.map k v => do
      let _ ← isEnumJs defsArg none
      let kt ← tc.convertJs defsArg k
      let vt ← tc.convertJs defsArg v
      pure ("\x7b[" ++ kt ++ "]: " ++ vt ++ "\x7d")
  | ThriftType.identifier n => do
      let e ← isEnumJs defsArg (some n)
      if e then pure ("$Keys<typeof " ++ tc.transformName n ++ ">")
      else pure (tc.transformName n)
  | ThriftType.base tag anns => do
      let _ ← isEnumJs defsArg none
      match annotationRule tag anns with
      | some s => pure s
      | none => pure (TypeConverter.primitives tag)

/-- `TypeConverter.convert(t, defs)` with the definition list actually
supplied: the total value of the two-argument form of the source
function (`convertJs_some` ties the two together). -/
def TypeConverter.convert (tc : TypeConverter) : ThriftType → List Definition → String
  | ThriftType.list v, defs => tc.convert v defs ++ "[]"
  | ThriftType.set v, defs => tc.convert v defs ++ "[]"
  | ThriftType.map k v, defs =>
      "\x7b[" ++ tc.convert k defs ++ "]: " ++ tc.convert v defs ++ "\x7d"
  | ThriftType.identifier n, defs =>
      if isEnumLookup defs (some n) then "$Keys<typeof " ++ tc.transformName n ++ ">"
      else tc.transformName n
  | ThriftType.base tag anns, _ =>
      match annotationRule tag anns with
      | some s => s
      | none => TypeConverter.primitives tag

theorem TypeConverter.convertJs_some (tc : TypeConverter) (defs : List Definition) :
    ∀ t, tc.convertJs (some defs) t = Except.ok (tc.convert t defs) := by
  intro t
  induction t with
  | base tag anns =>
      simp only [TypeConverter.convertJs, TypeConverter.convert, isEnumJs]
      cases annotationRule tag anns <;> rfl
  | identifier n =>
      simp only [TypeConverter.convertJs, TypeConverter.convert, isEnumJs]
      cases h : isEnumLookup defs (some n) <;>
        simp [h, Bind.bind, Except.bind, Pure.pure, Except.pure]
  | list v ih =>
      simp [TypeConverter.convertJs, TypeConverter.convert, ih, Bind.bind, Except.bind,
        Pure.pure, Except.pure]
  | set v ih =>
      simp [TypeConverter.convertJs, TypeConverter.convert, ih, Bind.bind, Except.bind,
        Pure.pure, Except.pure]
  | map k v ihk ihv =>
      simp [TypeConverter.convertJs, TypeConverter.convert, isEnumJs, ihk, ihv, Bind.bind,
        Except.bind, Pure.pure, Except.pure]

/-- With the `allDefinitions` argument missing — as at every convert.js
call site — `convert` throws for every type node. -/
theorem TypeConverter.convertJs_none (tc : TypeConverter) :
    ∀ t, tc.convertJs none t = Except.error () := by
  intro t
  induction t with
  | base tag anns => rfl
  | identifier n => rfl
  | list v ih => simp [TypeConverter.convertJs, ih, Except.bind]
  | set v ih => simp [TypeConverter.convertJs, ih, Except.bind]
  | map k v ihk ihv => rfl

/-
A model of the node `path` functions convert.js uses, over POSIX `/`
separators.  Splitting and joining are implemented directly on character
lists so that their algebra can be proved from first principles.  The
inputs convert.js feeds them — `path.resolve`d file paths and the
relative paths derived from those — are normalised, so no `.`/`..`
collapsing is modelled beyond what the functions below produce.
-/

/-- Split a character list at every `/`, node `String.prototype.split`
style: always at least one (possibly empty) piece. -/
def splitSlash : List Char → List (List Char)
  | [] => [[]]
  | c :: cs =>
      if c = '/' then [] :: splitSlash cs
      else
        match splitSlash cs with
        | s :: ss => (c :: s) :: ss
        | [] => [[c]]

/-- The non-empty path segments of a path string. -/
def segsOf (p : String) : List (List Char) :=
  (splitSlash p.toList).filter (fun s => s ≠ [])

/-- Join segments with `/` between them (no leading or trailing slash). -/
def joinSegs : List (List Char) → List Char
  | [] => []
  | [m] => m
  | m :: ms => m ++ '/' :: joinSegs ms

/-- Whether a path string is absolute (leading `/`). -/
def isAbsPath (p : String) : Bool :=
  p.toList.head? == some '/'

/-- node `path.basename(p)`: the last path segment (for the normalised,
segment-bearing paths used here; a degenerate path is its own basename). -/
def basenameStr (p : String) : String :=
  String.mk ((segsOf p).getLastD p.toList)

/-- Drop `suf` from the end of `l` when it is a proper suffix. -/
def dropSuffixList (l suf : List Char) : List Char :=
  l.take (l.length - suf.length)

/-- node `path.basename(p, ext)`: the basename, with `ext` stripped when
it is a suffix of the basename and the basename is not `ext` itself. -/
def basenameExtStr (p ext : String) : String :=
  let b := basenameStr p
  if b ≠ ext ∧ ext.toList.isSuffixOf b.toList then
    String.mk (dropSuffixList b.toList ext.toList)
  else b

/-- node `path.dirname(p)` for normalised paths: everything before the
last segment; `.` when there is no directory component, `/` for a
top-level absolute path. -/
def dirnameStr (p : String) : String :=
  let s := segsOf p
  if s.length ≤ 1 then (if isAbsPath p then "/" else ".")
  else (if isAbsPath p then "/" else "") ++ String.mk (joinSegs s.dropLast)

/-- The segments of node `path.relative(from, to)` on normalised paths:
drop the common prefix, then one `..` per remaining `from` segment
followed by the remaining `to` segments. -/
def relSegs : List (List Char) → List (List Char) → List (List Char)
  | a :: as, b :: bs =>
      if a = b then relSegs as bs
      else List.replicate (as.length + 1) ['.', '.'] ++ b :: bs
  | [], bs => bs
  | as, [] => List.replicate as.length ['.', '.']

/-- node `path.relative(from, to)` on normalised paths. -/
def pathRelative (fromDir target : String) : String :=
  String.mk (joinSegs (relSegs (segsOf fromDir) (segsOf target)))

/-- node `path.join(a, b)` on the shapes produced here (`a` a dirname,
`b` a plain file name): concatenation, with a bare `.` dropped. -/
def pathJoin (a b : String) : String :=
  if a = "." then b else String.mk (a.toList ++ '/' :: b.toList)

/-- `p.indexOf('/') !== -1`. -/
def hasSlash (p : String) : Bool :=
  p.toList.contains '/'

/-- JS `Array#map` with a callback that can throw: the elements are
visited left to right and the first throw aborts the whole map. -/
def mapThrow (f : α → Except Unit β) : List α → Except Unit (List β)
  | [] => Except.ok []
  | a :: as => do
      let b ← f a
      let bs ← mapThrow f as
      pure (b :: bs)

theorem mapThrow_nil (f : α → Except Unit β) : mapThrow f [] = Except.ok [] := rfl

theorem mapThrow_cons (f : α → Except Unit β) (a : α) (as : List α) :
    mapThrow f (a :: as) = (f a).bind (fun b => (mapThrow f as).bind
      (fun bs => Except.ok (b :: bs))) := rfl

/-- When every element maps successfully, `mapThrow` is `List.map`. -/
theorem mapThrow_eq_map (f : α → Except Unit β) (g : α → β)
    (h : ∀ a, f a = Except.ok (g a)) : ∀ l, mapThrow f l = Except.ok (l.map g) := by
  intro l
  induction l with
  | nil => rfl
  | cons a as ih => simp [mapThrow, h a, ih, Bind.bind, Except.bind, Pure.pure, Except.pure]

/-- convert.js `ThriftFileConverter`: the constructor-supplied options and
the resolved entry path (`this.thriftPath = path.resolve(thriftPath)`).
Its `types` field is a `TypeConverter` built from the same
`transformName` (line 53). -/
structure ThriftFileConverter where
  thriftPath : String
  transformName : String → String
  enumvalues : Bool
  withsource : Bool

/-- `this.types`. -/
def ThriftFileConverter.types (c : ThriftFileConverter) : TypeConverter :=
  ⟨c.transformName⟩

/-- convert.js `isOptional = field => field.optional`. -/
def ThriftFileConverter.isOptional (_c : ThriftFileConverter) (f : FieldDef) : Bool :=
  f.optional

/-
Every generator below takes a `defsArg : Option (List Definition)`: the
second argument the generator hands to `TypeConverter#convert`.  The
source call sites (convert.js lines 103, 106, 128, 138 and 151) pass no
second argument at all, i.e. the shipped behaviour is `defsArg = none`;
the parameter lets the theorems also describe what the same templates
produce when the definition list is supplied.
-/

/-- convert.js `generateStructContents`: each field as
`name` + `?`-if-optional + `: ` + converted type + `;`, newline-joined,
inside an exact-object literal. -/
def ThriftFileConverter.generateStructContents (c : ThriftFileConverter)
    (defsArg : Option (List Definition)) (fields : List FieldDef) : Except Unit String := do
  let entries ← mapThrow (fun f => do
      let t ← c.types.convertJs defsArg f.valueType
      pure (f.name ++ (if c.isOptional f then "?" else "") ++ ": " ++ t ++ ";")) fields
  pure ("\x7b|" ++ String.intercalate "\n" entries ++ "|\x7d")

/-- convert.js `generateFunction`: `name: (params) => returnType`, where
`params` is empty for a zero-field function and otherwise the whole
struct-contents rendering of the parameter fields. -/
def ThriftFileConverter.generateFunction (c : ThriftFileConverter)
    (defsArg : Option (List Definition)) (fn : FunctionDef) : Except Unit String := do
  let params ← if fn.fields.length ≠ 0
    then c.generateStructContents defsArg fn.fields else pure ""
  let ret ← c.types.convertJs defsArg fn.returns
  pure (fn.name ++ ": (" ++ params ++ ") => " ++ ret)

/-- convert.js `generateService`: `export type N = \x7b\n` + the function
renderings joined by `,` + `\x7d;` (a plain, non-exact object type). -/
def ThriftFileConverter.generateService (c : ThriftFileConverter)
    (defsArg : Option (List Definition)) (name : String) (fns : List FunctionDef) :
    Except Unit String := do
  let parts ← mapThrow (c.generateFunction defsArg) fns
  pure ("export type " ++ c.transformName name ++ " = \x7b\n" ++
    String.intercalate "," parts ++ "\x7d;")

/-- convert.js `generateTypedef`. -/
def ThriftFileConverter.generateTypedef (c : ThriftFileConverter)
    (defsArg : Option (List Definition)) (name : String) (valueType : ThriftType) :
    Except Unit String := do
  let t ← c.types.convertJs defsArg valueType
  pure ("export type " ++ c.transformName name ++ " = " ++ t ++ ";")

/-- convert.js `generateEnumValues`: `d.value ? d.value.value : index`,
joined by ` | `. -/
def ThriftFileConverter.generateEnumValues (_c : ThriftFileConverter)
    (members : List EnumMember) : String :=
  String.intercalate " | " (members.enum.map (fun p =>
    match p.2.value with
    | some v => toString v
    | none => toString p.1))

/-- convert.js `generateEnumKeys`: the double-quoted member names joined
by ` | `, with the template's trailing `;`. -/
def ThriftFileConverter.generateEnumKeys (_c : ThriftFileConverter)
    (members : List EnumMember) : String :=
  String.intercalate " | " (members.map (fun m => "\"" ++ m.name ++ "\"")) ++ ";"

/-- convert.js `generateEnum`: two `export type` statements whose naming
depends on the `enumvalues` option; the literal template whitespace
(newline + 7 spaces, resp. newline + 6 spaces) is preserved. -/
def ThriftFileConverter.generateEnum (c : ThriftFileConverter)
    (name : String) (members : List EnumMember) : String :=
  if c.enumvalues then
    "export type " ++ c.transformName name ++ " = " ++ c.generateEnumValues members ++
      ";\n       export type " ++ c.transformName name ++ "Keys = " ++
      c.generateEnumKeys members ++ ";"
  else
    "export type " ++ c.transformName name ++ "Values = " ++ c.generateEnumValues members ++
      ";\n      export type " ++ c.transformName name ++ " = " ++
      c.generateEnumKeys members ++ ";"

/-- convert.js `generateConst`: a string literal value is wrapped in two
single quotes with its characters untouched; any other literal is
interpolated as its own text. -/
def ThriftFileConverter.generateConst (c : ThriftFileConverter)
    (defsArg : Option (List Definition)) (name : String) (fieldType : ThriftType)
    (value : ConstLiteral) : Except Unit String := do
  let v := match value with
    | ConstLiteral.str s => "\x27" ++ s ++ "\x27"
    | ConstLiteral.other t => t
  let ft ← c.types.convertJs defsArg fieldType
  pure ("export const " ++ c.transformName name ++ ": " ++ ft ++ " = " ++ v ++ ";")

/-- convert.js `generateStruct` (also used for `Exception` definitions). -/
def ThriftFileConverter.generateStruct (c : ThriftFileConverter)
    (defsArg : Option (List Definition)) (name : String) (fields : List FieldDef) :
    Except Unit String := do
  let contents ← c.generateStructContents defsArg fields
  pure ("export type " ++ c.transformName name ++ " = " ++ contents ++ ";")

/-- convert.js `generateUnionContents`: `\x7b||\x7d` for an empty field
list, otherwise one single-field exact-object alternative per field,
joined by ` | `. -/
def ThriftFileConverter.generateUnionContents (c : ThriftFileConverter)
    (defsArg : Option (List Definition)) (fields : List FieldDef) : Except Unit String :=
  if fields.length = 0 then pure "\x7b||\x7d"
  else do
    let parts ← mapThrow (fun f => do
        let t ← c.types.convertJs defsArg f.valueType
        pure ("\x7b|" ++ f.name ++ ": " ++ t ++ "|\x7d")) fields
    pure (String.intercalate " | " parts)

/-- convert.js `generateUnion`. -/
def ThriftFileConverter.generateUnion (c : ThriftFileConverter)
    (defsArg : Option (List Definition)) (name : String) (fields : List FieldDef) :
    Except Unit String := do
  let contents ← c.generateUnionContents defsArg fields
  pure ("export type " ++ c.transformName name ++ " = " ++ contents ++ ";")

/-- convert.js `convertDefinitionToCode`: the `switch (def.type)`
dispatch.  `Except.ok none` is the `null` returned by the `default:`
branch (its `console.warn` side effect is modelled by `defWarning`). -/
def ThriftFileConverter.convertDefinitionToCode (c : ThriftFileConverter)
    (defsArg : Option (List Definition)) : Definition → Except Unit (Option String)
  | Definition.struct n fs => Except.map some (c.generateStruct defsArg n fs)
  | Definition.exception n fs => Except.map some (c.generateStruct defsArg n fs)
  | Definition.union n fs => Except.map some (c.generateUnion defsArg n fs)
  | Definition.enum n ms => Except.ok (some (c.generateEnum n ms))
  | Definition.typedef n t => Except.map some (c.generateTypedef defsArg n t)
  | Definition.service n fns => Except.map some (c.generateService defsArg n fns)
  | Definition.const n ft v => Except.map some (c.generateConst defsArg n ft v)
  | Definition.unknown _ _ => Except.ok none

/-- The `console.warn` text the dispatch emits for one definition: only
the `default:` branch warns, with
`basename(thriftPath): Skipping <kind> <name or ?>`. -/
def ThriftFileConverter.defWarning (c : ThriftFileConverter) : Definition → List String
  | Definition.unknown kind idName =>
      [basenameStr c.thriftPath ++ ": Skipping " ++ kind ++ " " ++ idName.getD "?"]
  | _ => []

/-- The warnings a whole run logs: accumulated left to right and cut off
at the first definition whose rendering throws (the thrown TypeError
aborts the surrounding `Array#map`). -/
def ThriftFileConverter.runWarnings (c : ThriftFileConverter)
    (defsArg : Option (List Definition)) : List Definition → List String
  | [] => []
  | d :: rest =>
      match c.convertDefinitionToCode defsArg d with
      | Except.ok _ => c.defWarning d ++ c.runWarnings defsArg rest
      | Except.error _ => []

/-- convert.js `generateImports`: filter the entry file out of the
resolved idl paths, rebuild each survivor as
`join(dirname(relative(dirname(entry), p)), basename(p, '.thrift'))`,
prefix `./` when the result has no `/`, and render one namespace import
per path, newline-joined.  (The source phrases this as a chain of
`Array#map`s; the composition per element is identical.)  The `idlPaths`
argument stands for `Object.keys(this.thrift.idls)` after the
`path.resolve` of `getImportAbsPaths`, which is the identity on those
already-absolute keys. -/
def ThriftFileConverter.importPathOf (c : ThriftFileConverter) (p : String) : String :=
  pathJoin (dirnameStr (pathRelative (dirnameStr c.thriftPath) p))
    (basenameExtStr p ".thrift")

def ThriftFileConverter.importRelOf (c : ThriftFileConverter) (p : String) : String :=
  let q := c.importPathOf p
  if hasSlash q then q else "./" ++ q

def ThriftFileConverter.importStmtOf (c : ThriftFileConverter) (p : String) : String :=
  "import * as " ++ basenameStr (c.importRelOf p) ++ " from \x27" ++
    c.importRelOf p ++ ".js\x27;"

def ThriftFileConverter.generateImports (c : ThriftFileConverter)
    (idlPaths : List String) : String :=
  String.intercalate "\n"
    (((idlPaths.filter (fun p => p ≠ c.thriftPath)).map (c.importStmtOf)))

/-- convert.js `generateFlowFile` up to the external `prettier.format`
call: the `// @flow` marker, the header comment (`now` stands for
`new Date().toString()`, `withsource` adds the source line), the import
block and the per-definition blocks, with `null` blocks and empty
strings removed by `.filter(Boolean)` and the rest joined by blank
lines. -/
def ThriftFileConverter.generateFlowFileRaw (c : ThriftFileConverter)
    (defsArg : Option (List Definition)) (now : String) (idlPaths : List String)
    (defs : List Definition) : Except Unit String := do
  let blocks ← mapThrow (c.convertDefinitionToCode defsArg) defs
  let header := "// Generated by thrift2flow at " ++ now ++
    (if c.withsource then "\n// Source: " ++ c.thriftPath else "")
  let pieces := ["// @flow", header, c.generateImports idlPaths] ++ blocks.filterMap id
  pure (String.intercalate "\n\n" (pieces.filter (fun s => s ≠ "")))

/-
Pure counterparts: the value each generator computes when the
`allDefinitions` argument is supplied to the type converter, together
with the lemmas tying them to the `Except`-level generators.
-/

/-- One struct-contents entry:
`name` + `?`-if-optional + `: ` + converted type + `;`. -/
def ThriftFileConverter.structEntryP (c : ThriftFileConverter) (defs : List Definition)
    (f : FieldDef) : String :=
  f.name ++ (if c.isOptional f then "?" else "") ++ ": " ++
    c.types.convert f.valueType defs ++ ";"

def ThriftFileConverter.structContentsP (c : ThriftFileConverter) (defs : List Definition)
    (fields : List FieldDef) : String :=
  "\x7b|" ++ String.intercalate "\n" (fields.map (c.structEntryP defs)) ++ "|\x7d"

def ThriftFileConverter.functionP (c : ThriftFileConverter) (defs : List Definition)
    (fn : FunctionDef) : String :=
  fn.name ++ ": (" ++
    (if fn.fields.length ≠ 0 then c.structContentsP defs fn.fields else "") ++
    ") => " ++ c.types.convert fn.returns defs

def ThriftFileConverter.serviceP (c : ThriftFileConverter) (defs : List Definition)
    (name : String) (fns : List FunctionDef) : String :=
  "export type " ++ c.transformName name ++ " = \x7b\n" ++
    String.intercalate "," (fns.map (c.functionP defs)) ++ "\x7d;"

def ThriftFileConverter.unionContentsP (c : ThriftFileConverter) (defs : List Definition)
    (fields : List FieldDef) : String :=
  if fields.length = 0 then "\x7b||\x7d"
  else String.intercalate " | " (fields.map (fun f =>
    "\x7b|" ++ f.name ++ ": " ++ c.types.convert f.valueType defs ++ "|\x7d"))

theorem ThriftFileConverter.generateStructContents_some (c : ThriftFileConverter)
    (defs : List Definition) (fields : List FieldDef) :
    c.generateStructContents (some defs) fields =
      Except.ok (c.structContentsP defs fields) := by
  unfold ThriftFileConverter.generateStructContents ThriftFileConverter.structContentsP
  rw [mapThrow_eq_map _ (c.structEntryP defs)
    (fun f => by
      simp [TypeConverter.convertJs_some, ThriftFileConverter.structEntryP,
        Bind.bind, Except.bind, Pure.pure, Except.pure])]
  simp [Bind.bind, Except.bind, Pure.pure, Except.pure]

theorem ThriftFileConverter.generateFunction_some (c : ThriftFileConverter)
    (defs : List Definition) (fn : FunctionDef) :
    c.generateFunction (some defs) fn = Except.ok (c.functionP defs fn) := by
  unfold ThriftFileConverter.generateFunction ThriftFileConverter.functionP
  by_cases h : fn.fields.length ≠ 0 <;>
    simp [h, c.generateStructContents_some defs, TypeConverter.convertJs_some,
      Bind.bind, Except.bind, Pure.pure, Except.pure]

theorem ThriftFileConverter.generateService_some (c : ThriftFileConverter)
    (defs : List Definition) (name : String) (fns : List FunctionDef) :
    c.generateService (some defs) name fns = Except.ok (c.serviceP defs name fns) := by
  unfold ThriftFileConverter.generateService ThriftFileConverter.serviceP
  rw [mapThrow_eq_map _ (c.functionP defs) (c.generateFunction_some defs)]
  simp [Bind.bind, Except.bind, Pure.pure, Except.pure]

theorem ThriftFileConverter.generateTypedef_some (c : ThriftFileConverter)
    (defs : List Definition) (name : String) (t : ThriftType) :
    c.generateTypedef (some defs) name t =
      Except.ok ("export type " ++ c.transformName name ++ " = " ++
        c.types.convert t defs ++ ";") := by
  simp [ThriftFileConverter.generateTypedef, TypeConverter.convertJs_some,
    Bind.bind, Except.bind, Pure.pure, Except.pure]

theorem ThriftFileConverter.generateConst_some (c : ThriftFileConverter)
    (defs : List Definition) (name : String) (ft : ThriftType) (v : ConstLiteral) :
    c.generateConst (some defs) name ft v =
      Except.ok ("export const " ++ c.transformName name ++ ": " ++
        c.types.convert ft defs ++ " = " ++
        (match v with
         | ConstLiteral.str s => "\x27" ++ s ++ "\x27"
         | ConstLiteral.other t => t) ++ ";") := by
  simp [ThriftFileConverter.generateConst, TypeConverter.convertJs_some,
    Bind.bind, Except.bind, Pure.pure, Except.pure]

theorem ThriftFileConverter.generateStruct_some (c : ThriftFileConverter)
    (defs : List Definition) (name : String) (fields : List FieldDef) :
    c.generateStruct (some defs) name fields =
      Except.ok ("export type " ++ c.transformName name ++ " = " ++
        c.structContentsP defs fields ++ ";") := by
  simp [ThriftFileConverter.generateStruct, c.generateStructContents_some defs,
    Bind.bind, Except.bind, Pure.pure, Except.pure]

theorem ThriftFileConverter.generateUnionContents_some (c : ThriftFileConverter)
    (defs : List Definition) (fields : List FieldDef) :
    c.generateUnionContents (some defs) fields =
      Except.ok (c.unionContentsP defs fields) := by
  unfold ThriftFileConverter.generateUnionContents ThriftFileConverter.unionContentsP
  by_cases h : fields.length = 0
  · simp [h, Pure.pure, Except.pure]
  · simp only [h, if_false]
    rw [mapThrow_eq_map _
      (fun f => "\x7b|" ++ f.name ++ ": " ++ c.types.convert f.valueType defs ++ "|\x7d")
      (fun f => by
        simp [TypeConverter.convertJs_some, Bind.bind, Except.bind, Pure.pure, Except.pure])]
    simp [Bind.bind, Except.bind, Pure.pure, Except.pure]

theorem ThriftFileConverter.generateUnion_some (c : ThriftFileConverter)
    (defs : List Definition) (name : String) (fields : List FieldDef) :
    c.generateUnion (some defs) name fields =
      Except.ok ("export type " ++ c.transformName name ++ " = " ++
        c.unionContentsP defs fields ++ ";") := by
  simp [ThriftFileConverter.generateUnion, c.generateUnionContents_some defs,
    Bind.bind, Except.bind, Pure.pure, Except.pure]

/-
Claim C2: the precedence of the conversion rules.
-/

/-- With no duplicate definition names, a name determines its definition. -/
theorem defName_inj_of_nodup : ∀ {defs : List Definition},
    (defs.filterMap Definition.defName).Nodup →
    ∀ {a b : Definition}, a ∈ defs → b ∈ defs → ∀ {n : String},
      a.defName = some n → b.defName = some n → a = b := by
  intro defs
  induction defs with
  | nil => intro _ a b ha; simp at ha
  | cons d rest ih =>
      intro hnd a b ha hb n hna hnb
      have hrest : (rest.filterMap Definition.defName).Nodup := by
        rcases hdn : d.defName with _ | m <;> simp [List.filterMap_cons, hdn] at hnd
        · exact hnd
        · exact hnd.2
      rcases List.mem_cons.mp ha with rfl | ha' <;> rcases List.mem_cons.mp hb with rfl | hb'
      · rfl
      · exfalso
        have hnd' : (n :: rest.filterMap Definition.defName).Nodup := by
          simpa only [List.filterMap_cons, hna] using hnd
        exact (List.nodup_cons.mp hnd').1 (List.mem_filterMap.mpr ⟨b, hb', hnb⟩)
      · exfalso
        have hnd' : (n :: rest.filterMap Definition.defName).Nodup := by
          simpa only [List.filterMap_cons, hnb] using hnd
        exact (List.nodup_cons.mp hnd').1 (List.mem_filterMap.mpr ⟨a, ha', hna⟩)
      · exact ih hrest ha' hb' hna hnb

theorem isEnumLookup_true_of_exists {defs : List Definition} {n : String}
    (hnd : (defs.filterMap Definition.defName).Nodup)
    (h : ∃ d ∈ defs, d.defName = some n ∧ d.isEnumDef = true) :
    isEnumLookup defs (some n) = true := by
  obtain ⟨d₀, hmem, hname, henum⟩ := h
  unfold isEnumLookup
  cases hf : defs.find? (fun d => d.defName == some n) with
  | none =>
      exfalso
      have := List.find?_eq_none.mp hf d₀ hmem
      simp [hname] at this
  | some d₁ =>
      have h₁ : d₁.defName = some n := by
        have := List.find?_some hf
        simpa using this
      have : d₁ = d₀ := defName_inj_of_nodup hnd (List.mem_of_find?_eq_some hf) hmem h₁ hname
      simpa [this] using henum

theorem isEnumLookup_false_of_not_exists {defs : List Definition} {n : String}
    (h : ¬ ∃ d ∈ defs, d.defName = some n ∧ d.isEnumDef = true) :
    isEnumLookup defs (some n) = false := by
  unfold isEnumLookup
  cases hf : defs.find? (fun d => d.defName == some n) with
  | none => rfl
  | some d₁ =>
      have h₁ : d₁.defName = some n := by
        have := List.find?_some hf
        simpa using this
      cases he : d₁.isEnumDef with
      | false => exact he
      | true => exact absurd ⟨d₁, List.mem_of_find?_eq_some hf, h₁, he⟩ h

theorem i64Mappings_eq_none {js : String} (h1 : js ≠ "Long") (h2 : js ≠ "Date") :
    TypeConverter.i64Mappings js = none := by
  unfold TypeConverter.i64Mappings
  split
  · exact absurd rfl h1
  · exact absurd rfl h2
  · rfl

/-- C2: `TypeConverter.convert(t, defs)` applies exactly the first matching
rule of the ordered list: (1) list/set recurse and append `[]`; (2) a
reference naming an Enum definition in `defs` renders as the keys-of
expression over the transformed enum name; (3) a map renders as an
index-signature object of its recursively converted key and value types;
(4) an i64 whose `js.type` annotation is `Long` or `Date` renders as that
alias, an unrecognised annotation falling through; (5) a primitive renders
per the fixed table (bool→boolean, byte/i8/i16/i32/double→number,
string→string, binary→Buffer, unannotated i64→Buffer, void→void); (6)
otherwise the result is `transformName(t.name)`.  (The uniqueness
hypothesis reflects that IDL definition names are unique per file; the
code resolves a name by its first match.) -/
theorem c2_convert_precedence (tc : TypeConverter) (defs : List Definition)
    (hnd : (defs.filterMap Definition.defName).Nodup) :
    (∀ v, tc.convert (ThriftType.list v) defs = tc.convert v defs ++ "[]")
    ∧ (∀ v, tc.convert (ThriftType.set v) defs = tc.convert v defs ++ "[]")
    ∧ (∀ n, (∃ d ∈ defs, d.defName = some n ∧ d.isEnumDef = true) →
        tc.convert (ThriftType.identifier n) defs =
          "$Keys<typeof " ++ tc.transformName n ++ ">")
    ∧ (∀ k v, tc.convert (ThriftType.map k v) defs =
        "\x7b[" ++ tc.convert k defs ++ "]: " ++ tc.convert v defs ++ "\x7d")
    ∧ (∀ anns, jsTypeOf anns = some "Long" →
        tc.convert (ThriftType.base BaseTag.i64 anns) defs = "Long")
    ∧ (∀ anns, jsTypeOf anns = some "Date" →
        tc.convert (ThriftType.base BaseTag.i64 anns) defs = "Date")
    ∧ (∀ anns js, jsTypeOf anns = some js → js ≠ "Long" → js ≠ "Date" →
        tc.convert (ThriftType.base BaseTag.i64 anns) defs = "Buffer")
    ∧ (∀ anns, jsTypeOf anns = none →
        tc.convert (ThriftType.base BaseTag.i64 anns) defs = "Buffer")
    ∧ (∀ tag anns, tag ≠ BaseTag.i64 →
        tc.convert (ThriftType.base tag anns) defs = TypeConverter.primitives tag)
    ∧ (TypeConverter.primitives BaseTag.bool = "boolean"
        ∧ TypeConverter.primitives BaseTag.byte = "number"
        ∧ TypeConverter.primitives BaseTag.i8 = "number"
        ∧ TypeConverter.primitives BaseTag.i16 = "number"
        ∧ TypeConverter.primitives BaseTag.i32 = "number"
        ∧ TypeConverter.primitives BaseTag.double = "number"
        ∧ TypeConverter.primitives BaseTag.string = "string"
        ∧ TypeConverter.primitives BaseTag.binary = "Buffer"
        ∧ TypeConverter.primitives BaseTag.i64 = "Buffer"
        ∧ TypeConverter.primitives BaseTag.void = "void")
    ∧ (∀ n, (¬ ∃ d ∈ defs, d.defName = some n ∧ d.isEnumDef = true) →
        tc.convert (ThriftType.identifier n) defs = tc.transformName n) := by
  refine ⟨fun v => rfl, fun v => rfl, ?_, fun k v => rfl, ?_, ?_, ?_, ?_, ?_,
    ⟨rfl, rfl, rfl, rfl, rfl, rfl, rfl, rfl, rfl, rfl⟩, ?_⟩
  · intro n h
    simp [TypeConverter.convert, isEnumLookup_true_of_exists hnd h]
  · intro anns h
    simp [TypeConverter.convert, annotationRule, h, TypeConverter.i64Mappings]
  · intro anns h
    simp [TypeConverter.convert, annotationRule, h, TypeConverter.i64Mappings]
  · intro anns js h h1 h2
    rcases eq_or_ne js "" with rfl | hne
    · simp [TypeConverter.convert, annotationRule, h, TypeConverter.primitives]
    · simp [TypeConverter.convert, annotationRule, h, hne,
        i64Mappings_eq_none h1 h2, TypeConverter.primitives]
  · intro anns h
    simp [TypeConverter.convert, annotationRule, h, TypeConverter.primitives]
  · intro tag anns h
    simp [TypeConverter.convert, annotationRule, h]
  · intro n h
    simp [TypeConverter.convert, isEnumLookup_false_of_not_exists h]

/-- Witness for C2 at a concrete converter, definition list and inputs. -/
theorem c2_convert_precedence_witness :
    (TypeConverter.mk (fun s => s)).convert (ThriftType.identifier "Color")
        [Definition.enum "Color" [⟨"RED", none⟩], Definition.struct "S" []]
      = "$Keys<typeof Color>"
    ∧ (TypeConverter.mk (fun s => s)).convert (ThriftType.identifier "S")
        [Definition.enum "Color" [⟨"RED", none⟩], Definition.struct "S" []]
      = "S" := by
  have h := c2_convert_precedence (TypeConverter.mk (fun s => s))
    [Definition.enum "Color" [⟨"RED", none⟩], Definition.struct "S" []] (by decide)
  obtain ⟨-, -, henum, -, -, -, -, -, -, -, hfall⟩ := h
  exact ⟨henum "Color" (by decide), hfall "S" (by decide)⟩

/-
Claim C9: name-transform consistency between declaration and reference
sites.
-/

/-- C9: for every named definition and every transformName, the identifier
emitted at the declaration site equals the identifier emitted at a
reference site: the declaration renderers and the TypeMapper's
named-reference and enum-reference rules all pass the same name through
the same `transformName` (the converter is built from the converter
options' transform, and a reference renders either as the keys-of
expression over `transformName n` or as `transformName n` itself). -/
theorem c9_name_transform_consistency (c : ThriftFileConverter)
    (defs : List Definition) (n : String) :
    c.types.transformName = c.transformName
    ∧ (c.types.convert (ThriftType.identifier n) defs =
          "$Keys<typeof " ++ c.transformName n ++ ">"
        ∨ c.types.convert (ThriftType.identifier n) defs = c.transformName n)
    ∧ (∀ fields, c.generateStruct (some defs) n fields =
        Except.ok ("export type " ++ c.transformName n ++ " = " ++
          c.structContentsP defs fields ++ ";"))
    ∧ (∀ fields, c.generateUnion (some defs) n fields =
        Except.ok ("export type " ++ c.transformName n ++ " = " ++
          c.unionContentsP defs fields ++ ";"))
    ∧ (∀ ms, ∃ rest, c.generateEnum n ms =
        "export type " ++ c.transformName n ++ rest)
    ∧ (∀ t, c.generateTypedef (some defs) n t =
        Except.ok ("export type " ++ c.transformName n ++ " = " ++
          c.types.convert t defs ++ ";"))
    ∧ (∀ fns, c.generateService (some defs) n fns =
        Except.ok ("export type " ++ c.transformName n ++ " = \x7b\n" ++
          String.intercalate "," (fns.map (c.functionP defs)) ++ "\x7d;"))
    ∧ (∀ ft v, c.generateConst (some defs) n ft v =
        Except.ok ("export const " ++ c.transformName n ++ ": " ++
          c.types.convert ft defs ++ " = " ++
          (match v with
           | ConstLiteral.str s => "\x27" ++ s ++ "\x27"
           | ConstLiteral.other t => t) ++ ";")) := by
  refine ⟨rfl, ?_, ?_, ?_, ?_, ?_, ?_, ?_⟩
  · cases h : isEnumLookup defs (some n)
    · exact Or.inr (by simp [TypeConverter.convert, h, ThriftFileConverter.types])
    · exact Or.inl (by simp [TypeConverter.convert, h, ThriftFileConverter.types])
  · exact fun fields => c.generateStruct_some defs n fields
  · exact fun fields => c.generateUnion_some defs n fields
  · intro ms
    cases h : c.enumvalues
    · exact ⟨"Values = " ++ c.generateEnumValues ms ++ ";\n      export type " ++
        c.transformName n ++ " = " ++ c.generateEnumKeys ms ++ ";",
        by simp [ThriftFileConverter.generateEnum, h, String.append_assoc]⟩
    · exact ⟨" = " ++ c.generateEnumValues ms ++ ";\n       export type " ++
        c.transformName n ++ "Keys = " ++ c.generateEnumKeys ms ++ ";",
        by simp [ThriftFileConverter.generateEnum, h, String.append_assoc]⟩
  · exact fun t => c.generateTypedef_some defs n t
  · exact fun fns => c.generateService_some defs n fns
  · exact fun ft v => c.generateConst_some defs n ft v

/-
Claim C4: the enum dual-naming policy.
-/

/-- The value literals of an enum in declaration order starting at
position `i`: the member's explicit value if given, else its positional
index. -/
def enumValueLiterals : Nat → List EnumMember → List String
  | _, [] => []
  | i, m :: ms =>
      (match m.value with
       | some v => toString v
       | none => toString i) :: enumValueLiterals (i + 1) ms

/-- The double-quoted string literals of the member names. -/
def enumKeyLiterals (ms : List EnumMember) : List String :=
  ms.map (fun m => "\"" ++ m.name ++ "\"")

theorem enumFrom_map_values (ms : List EnumMember) : ∀ i,
    (List.enumFrom i ms).map (fun p =>
      match p.2.value with
      | some v => toString v
      | none => toString p.1) = enumValueLiterals i ms := by
  induction ms with
  | nil => intro i; rfl
  | cons m ms ih => intro i; simp [List.enumFrom_cons, enumValueLiterals, ih]

/-- C4: every enum yields exactly two exported types, one the union of the
value literals (explicit value if given, else zero-based positional
index) and the other the union of the members' quoted names; with
`enumvalues = false` the key union receives the plain name and the value
union the name suffixed `Values`, with `enumvalues = true` the value
union receives the plain name and the key union the name suffixed
`Keys`.  The second conjunct is the spec's Color scenario. -/
theorem c4_enum_dual_naming :
    (∀ (c : ThriftFileConverter) (n : String) (ms : List EnumMember),
      c.generateEnum n ms =
        if c.enumvalues then
          "export type " ++ c.transformName n ++ " = " ++
            String.intercalate " | " (enumValueLiterals 0 ms) ++
            ";\n       export type " ++ c.transformName n ++ "Keys = " ++
            (String.intercalate " | " (enumKeyLiterals ms) ++ ";") ++ ";"
        else
          "export type " ++ c.transformName n ++ "Values = " ++
            String.intercalate " | " (enumValueLiterals 0 ms) ++
            ";\n      export type " ++ c.transformName n ++ " = " ++
            (String.intercalate " | " (enumKeyLiterals ms) ++ ";") ++ ";")
    ∧ (ThriftFileConverter.mk "/x/a.thrift" (fun s => s) false false).generateEnum "Color"
        [⟨"RED", none⟩, ⟨"GREEN", none⟩, ⟨"BLUE", none⟩] =
      "export type ColorValues = 0 | 1 | 2;\n      export type Color = \"RED\" | \"GREEN\" | \"BLUE\";;" := by
  constructor
  · intro c n ms
    have hv : c.generateEnumValues ms =
        String.intercalate " | " (enumValueLiterals 0 ms) := by
      unfold ThriftFileConverter.generateEnumValues
      rw [show ms.enum = List.enumFrom 0 ms from rfl, enumFrom_map_values]
    have hk : c.generateEnumKeys ms =
        String.intercalate " | " (enumKeyLiterals ms) ++ ";" := rfl
    cases h : c.enumvalues <;>
      simp [ThriftFileConverter.generateEnum, h, hv, hk, enumKeyLiterals,
        String.append_assoc]
  · rfl

/-
Claims C1, C3, C5, C6, C10: concrete behaviour of the declaration
renderers.  `idTFC` is a converter with the identity name-transform and
default options.
-/

def idTFC : ThriftFileConverter := ⟨"/x/a.thrift", fun s => s, false, false⟩

theorem ThriftFileConverter.generateStructContents_none_cons (c : ThriftFileConverter)
    (f : FieldDef) (fs : List FieldDef) :
    c.generateStructContents none (f :: fs) = Except.error () := by
  simp [ThriftFileConverter.generateStructContents, mapThrow, TypeConverter.convertJs_none,
    Bind.bind, Except.bind]

theorem ThriftFileConverter.generateFunction_none (c : ThriftFileConverter)
    (fn : FunctionDef) : c.generateFunction none fn = Except.error () := by
  unfold ThriftFileConverter.generateFunction
  cases hf : fn.fields with
  | nil =>
      simp [hf, TypeConverter.convertJs_none, Bind.bind, Except.bind, Pure.pure, Except.pure]
  | cons f fs =>
      simp [hf, c.generateStructContents_none_cons f fs, Bind.bind, Except.bind]

theorem ThriftFileConverter.generateService_none (c : ThriftFileConverter)
    (n : String) (fns : List FunctionDef) :
    c.generateService none n fns =
      (if fns.isEmpty
       then Except.ok ("export type " ++ c.transformName n ++ " = \x7b\n\x7d;")
       else Except.error ()) := by
  cases fns with
  | nil =>
      simp only [ThriftFileConverter.generateService, mapThrow, Bind.bind, Except.bind,
        Pure.pure, Except.pure, List.isEmpty_nil, if_true, String.intercalate,
        String.append_assoc]
      congr 1
  | cons fn rest =>
      simp [ThriftFileConverter.generateService, mapThrow, c.generateFunction_none fn,
        Bind.bind, Except.bind]

/-- C1 (code bug): generating the declarations of even a trivially
well-formed file throws.  The entry file holds one definition,
`typedef string UUID`; the whole-file rendering is `Except.error ()` — a
TypeError — because every convert.js call site passes no `allDefinitions`
argument and `isEnum` dereferences `undefined`.  The other conjuncts show
the behaviour the claim describes is exactly what the converter does
when the definition list is supplied (an unresolvable name falls back to
`transformName(name)`), and that the converter alone, invoked the way
convert.js invokes it, already throws on a primitive type slot. -/
theorem c1_generation_throws :
    idTFC.generateFlowFileRaw none "TS" []
        [ Definition.typedef "UUID" (ThriftType.base BaseTag.string [])] = Except.error ()
    ∧ (TypeConverter.mk (fun s => s)).convert (ThriftType.identifier "Missing") [] = "Missing"
    ∧ (TypeConverter.mk (fun s => s)).convertJs none (ThriftType.base BaseTag.string [])
        = Except.error () :=
  ⟨rfl, rfl, rfl⟩

/-- C3 (counterexample): the service generator does not emit the claimed
declaration.  As shipped (no definitions argument) it throws for any
service with a function; and even with the definitions supplied, the
parameter list renders as one closed object literal produced by the
struct-field rule — not as comma-joined `name: Type` pairs — and the
service object itself is a plain `\x7b ... \x7d`, not a closed object
type. -/
theorem c3_counterexample :
    idTFC.generateService none "S"
        [⟨"ping", [⟨"x", false, ThriftType.base BaseTag.i32 []⟩],
          ThriftType.base BaseTag.void []⟩] = Except.error ()
    ∧ idTFC.generateService (some []) "S"
        [⟨"ping", [⟨"x", false, ThriftType.base BaseTag.i32 []⟩],
          ThriftType.base BaseTag.void []⟩,
         ⟨"getName", [], ThriftType.base BaseTag.string []⟩]
        = Except.ok
          "export type S = \x7b\nping: (\x7b|x: number;|\x7d) => void,getName: () => string\x7d;" :=
  ⟨rfl, rfl⟩

/-- C3 (amended): when the type converter is invoked with a definition
list, a Service renders as one exported type alias to a plain (open)
object type, one property per function joined by commas, each function
name mapping to `(P) => ReturnType` where `P` is empty for a
parameterless function and otherwise the struct-field-list rendering of
the parameter fields — a closed object literal whose entries keep their
optional markers.  As shipped, the converter argument is omitted: a
service with no functions still renders, and any function makes the
rendering throw. -/
theorem c3_service_rendering (c : ThriftFileConverter) (defs : List Definition)
    (n : String) (fns : List FunctionDef) :
    c.generateService (some defs) n fns =
      Except.ok ("export type " ++ c.transformName n ++ " = \x7b\n" ++
        String.intercalate ","
          (fns.map (fun fn =>
            fn.name ++ ": (" ++
              (if fn.fields.length ≠ 0 then c.structContentsP defs fn.fields else "") ++
              ") => " ++ c.types.convert fn.returns defs)) ++ "\x7d;")
    ∧ c.generateService none n fns =
      (if fns.isEmpty
       then Except.ok ("export type " ++ c.transformName n ++ " = \x7b\n\x7d;")
       else Except.error ()) :=
  ⟨c.generateService_some defs n fns, c.generateService_none n fns⟩

/-- C5 (code bug): a struct with a field is not rendered as claimed — it
throws, because the field-type conversion receives no definition list.
The remaining conjuncts evaluate the same template with the list
supplied: exactly the claimed exact-object rendering, `?` if and only if
the field is optional. -/
theorem c5_struct_rendering :
    idTFC.generateStruct none "S" [⟨"a", false, ThriftType.base BaseTag.i32 []⟩]
        = Except.error ()
    ∧ idTFC.generateStruct (some []) "S" [⟨"a", false, ThriftType.base BaseTag.i32 []⟩]
        = Except.ok "export type S = \x7b|a: number;|\x7d;"
    ∧ idTFC.generateStructContents (some [])
        [⟨"a", false, ThriftType.base BaseTag.i32 []⟩,
         ⟨"b", true, ThriftType.base BaseTag.string []⟩]
        = Except.ok "\x7b|a: number;\nb?: string;|\x7d" :=
  ⟨rfl, rfl, rfl⟩

/-- C6 (code bug): a union with a field is not rendered as claimed — it
throws, because the field-type conversion receives no definition list.
The zero-field union does render (its branch performs no conversion),
and with the list supplied a two-field union renders as exactly two
single-field closed-object alternatives joined by `|`. -/
theorem c6_union_rendering :
    idTFC.generateUnion none "U" [⟨"a", false, ThriftType.base BaseTag.i32 []⟩]
        = Except.error ()
    ∧ idTFC.generateUnionContents none [] = Except.ok "\x7b||\x7d"
    ∧ idTFC.generateUnion none "E" [] = Except.ok "export type E = \x7b||\x7d;"
    ∧ idTFC.generateUnion (some []) "U"
        [⟨"a", false, ThriftType.base BaseTag.i32 []⟩,
         ⟨"b", false, ThriftType.base BaseTag.string []⟩]
        = Except.ok "export type U = \x7b|a: number|\x7d | \x7b|b: string|\x7d;" :=
  ⟨rfl, rfl, rfl, rfl⟩

/-- C10 (code bug): a const declaration is not emitted — the declared
type's conversion receives no definition list and throws.  With the list
supplied, the quoting behaviour is exactly as the claim describes: a
string value is placed verbatim (no escaping) between two single quotes,
even when it itself contains a single quote, and a non-string literal is
emitted as its literal text with no quoting. -/
theorem c10_const_rendering :
    idTFC.generateConst none "X" (ThriftType.base BaseTag.string [])
        (ConstLiteral.str "x") = Except.error ()
    ∧ idTFC.generateConst (some []) "GREETING" (ThriftType.base BaseTag.string [])
        (ConstLiteral.str "it\x27s fine")
        = Except.ok "export const GREETING: string = \x27it\x27s fine\x27;"
    ∧ idTFC.generateConst (some []) "N" (ThriftType.base BaseTag.i32 [])
        (ConstLiteral.other "42")
        = Except.ok "export const N: number = 42;" :=
  ⟨rfl, rfl, rfl⟩

/-
Claim C8: unknown definition kinds are skipped with a warning and do not
abort the run.
-/

theorem mapThrow_append (f : α → Except Unit β) (l₁ l₂ : List α) :
    mapThrow f (l₁ ++ l₂) =
      (mapThrow f l₁).bind (fun b₁ =>
        (mapThrow f l₂).bind (fun b₂ => Except.ok (b₁ ++ b₂))) := by
  induction l₁ with
  | nil =>
      cases h : mapThrow f l₂ <;> simp [mapThrow, h, Except.bind]
  | cons a as ih =>
      rw [List.cons_append, mapThrow_cons, mapThrow_cons, ih]
      cases f a with
      | error e => simp [Except.bind]
      | ok b =>
          cases mapThrow f as with
          | error e => simp [Except.bind]
          | ok bs =>
              cases mapThrow f l₂ with
              | error e => simp [Except.bind]
              | ok b₂ => simp [Except.bind]

/-- Removing an unknown-kind definition does not change the rendered
document: its block is `null` and the truthiness filter drops it; the
remaining definitions are processed exactly as without it (including any
error they themselves produce). -/
theorem generateFlowFileRaw_skip_unknown (c : ThriftFileConverter)
    (defsArg : Option (List Definition)) (now : String) (idlPaths : List String)
    (pre suf : List Definition) (kind : String) (nm : Option String) :
    c.generateFlowFileRaw defsArg now idlPaths (pre ++ Definition.unknown kind nm :: suf)
      = c.generateFlowFileRaw defsArg now idlPaths (pre ++ suf) := by
  unfold ThriftFileConverter.generateFlowFileRaw
  rw [mapThrow_append, mapThrow_append]
  cases hpre : mapThrow (c.convertDefinitionToCode defsArg) pre with
  | error e => simp [Bind.bind, Except.bind]
  | ok b₁ =>
      have hu : c.convertDefinitionToCode defsArg (Definition.unknown kind nm)
          = Except.ok none := rfl
      cases hsuf : mapThrow (c.convertDefinitionToCode defsArg) suf with
      | error e => simp [Bind.bind, Except.bind, mapThrow, hu, hsuf]
      | ok b₂ =>
          simp [Bind.bind, Except.bind, mapThrow, hu, hsuf, Pure.pure, Except.pure,
            List.filterMap_append, List.filterMap_cons]

/-- C8: a definition of unknown kind contributes nothing to the output
(the dispatch returns `null` — never an error), a warning identifying
the source file's base name and the definition's kind and name is
logged, the document renders exactly as if the definition were absent,
and processing continues with the remaining definitions (their warnings
still accrue). -/
theorem c8_unknown_kind_skipped (c : ThriftFileConverter)
    (defsArg : Option (List Definition)) (now : String) (idlPaths : List String)
    (pre suf : List Definition) (kind : String) (nm : Option String) :
    c.convertDefinitionToCode defsArg (Definition.unknown kind nm) = Except.ok none
    ∧ c.defWarning (Definition.unknown kind nm) =
        [basenameStr c.thriftPath ++ ": Skipping " ++ kind ++ " " ++ nm.getD "?"]
    ∧ c.generateFlowFileRaw defsArg now idlPaths
        (pre ++ Definition.unknown kind nm :: suf)
        = c.generateFlowFileRaw defsArg now idlPaths (pre ++ suf)
    ∧ c.runWarnings defsArg (Definition.unknown kind nm :: suf)
        = (basenameStr c.thriftPath ++ ": Skipping " ++ kind ++ " " ++ nm.getD "?")
            :: c.runWarnings defsArg suf := by
  refine ⟨rfl, rfl, ?_, ?_⟩
  · exact generateFlowFileRaw_skip_unknown c defsArg now idlPaths pre suf kind nm
  · simp [ThriftFileConverter.runWarnings, ThriftFileConverter.convertDefinitionToCode,
      ThriftFileConverter.defWarning]

/-
Claim C7: import generation.  First the algebra of the path model.
-/

theorem splitSlash_ne_nil (l : List Char) : splitSlash l ≠ [] := by
  induction l with
  | nil => simp [splitSlash]
  | cons c cs ih =>
      by_cases hc : c = '/'
      · simp [splitSlash, hc]
      · cases h : splitSlash cs with
        | nil => exact absurd h ih
        | cons s ss => simp [splitSlash, hc, h]

theorem mem_splitSlash_no_slash (l : List Char) :
    ∀ s ∈ splitSlash l, '/' ∉ s := by
  induction l with
  | nil =>
      intro s hs
      simp [splitSlash] at hs
      simp [hs]
  | cons c cs ih =>
      intro s hs
      by_cases hc : c = '/'
      · simp only [splitSlash, if_pos hc] at hs
        rcases List.mem_cons.mp hs with rfl | hs'
        · simp
        · exact ih s hs'
      · cases h : splitSlash cs with
        | nil => exact absurd h (splitSlash_ne_nil cs)
        | cons t ts =>
            simp only [splitSlash, if_neg hc, h] at hs
            rcases List.mem_cons.mp hs with rfl | hs'
            · intro hmem
              rcases List.mem_cons.mp hmem with h1 | h1
              · exact hc h1.symm
              · exact ih t (h ▸ List.mem_cons_self t ts) h1
            · exact ih s (h ▸ List.mem_cons_of_mem t hs')

theorem segsOf_wf (p : String) : ∀ s ∈ segsOf p, s ≠ [] ∧ '/' ∉ s := by
  intro s hs
  have h := List.mem_filter.mp hs
  exact ⟨by simpa using h.2, mem_splitSlash_no_slash _ s h.1⟩

theorem splitSlash_append : ∀ (m : List Char), '/' ∉ m →
    ∀ (l s : List Char) (ss : List (List Char)), splitSlash l = s :: ss →
      splitSlash (m ++ l) = (m ++ s) :: ss := by
  intro m
  induction m with
  | nil =>
      intro _ l s ss h
      simpa using h
  | cons c m' ih =>
      intro hm l s ss h
      have hc : ¬ c = '/' := by
        intro hcc
        exact hm (by simp [hcc])
      have hm' : '/' ∉ m' := by
        intro h'
        exact hm (List.mem_cons_of_mem _ h')
      have hrec := ih hm' l s ss h
      simp [List.cons_append, splitSlash, hc, hrec]

theorem joinSegs_append_single (M : List (List Char)) (m : List Char) :
    joinSegs (M ++ [m]) = (if M.isEmpty then m else joinSegs M ++ '/' :: m) := by
  induction M with
  | nil => simp [joinSegs]
  | cons x M' ih =>
      cases M' with
      | nil => simp [joinSegs]
      | cons y M'' =>
          have h1 : joinSegs ((x :: y :: M'') ++ [m]) =
              x ++ '/' :: joinSegs ((y :: M'') ++ [m]) := rfl
          rw [h1, ih]
          simp [joinSegs, List.append_assoc]

theorem segsOf_joinSegs (M : List (List Char)) (hM : ∀ m ∈ M, m ≠ [] ∧ '/' ∉ m) :
    segsOf (String.mk (joinSegs M)) = M := by
  induction M with
  | nil => rfl
  | cons m M' ih =>
      have hm := hM m (List.mem_cons_self m M')
      have hM' : ∀ x ∈ M', x ≠ [] ∧ '/' ∉ x := fun x hx => hM x (List.mem_cons_of_mem m hx)
      cases M' with
      | nil =>
          have h0 : splitSlash (m ++ []) = (m ++ []) :: [] :=
            splitSlash_append m hm.2 [] [] [] rfl
          rw [List.append_nil] at h0
          unfold segsOf
          show (splitSlash (joinSegs [m])).filter (fun s => s ≠ []) = [m]
          simp [joinSegs, h0, hm.1]
      | cons m₂ M'' =>
          have hJ : splitSlash ('/' :: joinSegs (m₂ :: M'')) =
              [] :: splitSlash (joinSegs (m₂ :: M'')) := by
            simp [splitSlash]
          have h0 := splitSlash_append m hm.2 ('/' :: joinSegs (m₂ :: M''))
            [] (splitSlash (joinSegs (m₂ :: M''))) hJ
          rw [List.append_nil] at h0
          have ih' : (splitSlash (joinSegs (m₂ :: M''))).filter
              (fun s => decide (s ≠ [])) = m₂ :: M'' := ih hM'
          show (splitSlash (joinSegs (m :: m₂ :: M''))).filter
            (fun s => decide (s ≠ [])) = m :: m₂ :: M''
          have hjoin : joinSegs (m :: m₂ :: M'') = m ++ '/' :: joinSegs (m₂ :: M'') := rfl
          rw [hjoin, h0]
          simp [List.filter_cons, hm.1]
          simpa using ih'

theorem isAbsPath_joinSegs (M : List (List Char)) (hM : ∀ m ∈ M, m ≠ [] ∧ '/' ∉ m) :
    isAbsPath (String.mk (joinSegs M)) = false := by
  cases M with
  | nil => rfl
  | cons m M' =>
      have hm := hM m (List.mem_cons_self m M')
      obtain ⟨c, m', rfl⟩ := List.exists_cons_of_ne_nil hm.1
      have hc : ¬ c = '/' := by
        intro hcc
        exact hm.2 (by simp [hcc])
      cases M' with
      | nil => simp [isAbsPath, joinSegs, hc]
      | cons y M'' => simp [isAbsPath, joinSegs, hc, List.cons_append]

theorem mem_relSegs : ∀ (as bs : List (List Char)) (x : List Char),
    x ∈ relSegs as bs → x = ['.', '.'] ∨ x ∈ bs := by
  intro as
  induction as with
  | nil =>
      intro bs x hx
      right
      simpa [relSegs] using hx
  | cons a as' ih =>
      intro bs x hx
      cases bs with
      | nil =>
          left
          simp only [relSegs] at hx
          exact List.eq_of_mem_replicate hx
      | cons b bs' =>
          by_cases hab : a = b
          · have hx' : x ∈ relSegs as' bs' := by
              simp only [relSegs, if_pos hab] at hx
              exact hx
            rcases ih bs' x hx' with h | h
            · exact Or.inl h
            · exact Or.inr (List.mem_cons_of_mem _ h)
          · have hx' : x ∈ List.replicate (as'.length + 1) ['.', '.'] ++ b :: bs' := by
              simp only [relSegs, if_neg hab] at hx
              exact hx
            rcases List.mem_append.mp hx' with h | h
            · exact Or.inl (List.eq_of_mem_replicate h)
            · exact Or.inr h

theorem relSegs_getLast? : ∀ (as bs : List (List Char)), ¬ (bs <+: as) →
    (relSegs as bs).getLast? = bs.getLast? := by
  intro as
  induction as with
  | nil =>
      intro bs h
      simp [relSegs]
  | cons a as' ih =>
      intro bs h
      cases bs with
      | nil => exact absurd List.nil_prefix h
      | cons b bs' =>
          by_cases hab : a = b
          · have h' : ¬ (bs' <+: as') := by
              intro hp
              exact h (List.cons_prefix_cons.mpr ⟨hab.symm, hp⟩)
            have hbs' : bs' ≠ [] := by
              intro hb
              exact h (List.cons_prefix_cons.mpr ⟨hab.symm, hb ▸ List.nil_prefix⟩)
            obtain ⟨y, ys, rfl⟩ := List.exists_cons_of_ne_nil hbs'
            simp only [relSegs, if_pos hab]
            rw [ih _ h', List.getLast?_cons_cons]
          · simp only [relSegs, if_neg hab]
            rw [List.getLast?_append_of_ne_nil _ (by simp)]

theorem relSegs_ne_nil (as bs : List (List Char)) (h : ¬ (bs <+: as)) :
    relSegs as bs ≠ [] := by
  intro h0
  have hbs : bs ≠ [] := by
    intro hb
    exact h (hb ▸ List.nil_prefix)
  have hlast := relSegs_getLast? as bs h
  rw [h0] at hlast
  exact hbs (List.getLast?_eq_none_iff.mp hlast.symm)

theorem empty_append_str (s : String) : "" ++ s = s := by
  cases s
  rfl

theorem basenameStr_joinSegs (M : List (List Char)) (m : List Char)
    (hwf : ∀ x ∈ M ++ [m], x ≠ [] ∧ '/' ∉ x) :
    basenameStr (String.mk (joinSegs (M ++ [m]))) = String.mk m := by
  unfold basenameStr
  rw [segsOf_joinSegs _ hwf]
  simp [List.getLastD_eq_getLast?, List.getLast?_concat]

theorem basenameStr_dotSlash (q : String) (hq : segsOf q ≠ []) :
    basenameStr ("./" ++ q) = basenameStr q := by
  have hdata : ("./" ++ q).toList = '.' :: '/' :: q.toList := by
    show ("./" ++ q).data = '.' :: '/' :: q.data
    rw [String.data_append]
    rfl
  have hsplit : splitSlash ('.' :: '/' :: q.toList) = ['.'] :: splitSlash q.toList := by
    simp [splitSlash]
  have hq' : (splitSlash q.toList).filter (fun s => decide (s ≠ [])) ≠ [] := hq
  obtain ⟨z, zs, hz⟩ := List.exists_cons_of_ne_nil hq'
  unfold basenameStr segsOf
  rw [hdata, hsplit, List.filter_cons]
  simp only [ne_eq, decide_not]
  rw [show (!decide (['.'] = ([] : List Char))) = true by decide, if_pos rfl]
  rw [show (List.filter (fun s => !decide (s = [])) (splitSlash q.toList)) =
    (splitSlash q.toList).filter (fun s => decide (s ≠ [])) from by simp, hz]
  obtain ⟨w, hw⟩ : ∃ w, (z :: zs).getLast? = some w := by
    cases h' : (z :: zs).getLast? with
    | none => exact absurd (List.getLast?_eq_none_iff.mp h') (by simp)
    | some w => exact ⟨w, rfl⟩
  simp [List.getLastD_eq_getLast?, hw]

theorem dirnameStr_of_segs (r : String) (M : List (List Char))
    (hseg : segsOf r = M) (habs : isAbsPath r = false) :
    dirnameStr r =
      (if M.length ≤ 1 then "." else String.mk (joinSegs M.dropLast)) := by
  unfold dirnameStr
  rw [hseg, habs]
  by_cases h : M.length ≤ 1
  · simp [h]
  · simp [h, empty_append_str]

/-- The claim's module path: the path relative to the entry file's
directory, with the IDL extension stripped (`dropSuffixStr`), prefixed
with `./` when it has no directory component. -/
def dropSuffixStr (s suf : String) : String :=
  if suf.toList.isSuffixOf s.toList then String.mk (dropSuffixList s.toList suf.toList)
  else s

def ThriftFileConverter.specModulePath (c : ThriftFileConverter) (p : String) : String :=
  let s := dropSuffixStr (pathRelative (dirnameStr c.thriftPath) p) ".thrift"
  if hasSlash s then s else "./" ++ s

def ThriftFileConverter.specImportStmt (c : ThriftFileConverter) (p : String) : String :=
  "import * as " ++ basenameExtStr p ".thrift" ++ " from \x27" ++
    c.specModulePath p ++ ".js\x27;"

/-- The code's per-import path pipeline agrees with the claim's: the
rebuilt `join(dirname(relative(..)), basename(p, '.thrift'))` equals the
relative path with the extension stripped, and the binding is the file's
base name.  Hypotheses: `p` has at least one segment, is normalised (no
`.`/`..` segments), its base name carries a `.thrift` extension over a
non-empty stem, and `p` is not a prefix of the entry file's directory. -/
theorem importRel_spec (c : ThriftFileConverter) (p : String)
    (hb : segsOf p ≠ [])
    (hnorm : ∀ s ∈ segsOf p, s ≠ ['.'] ∧ s ≠ ['.', '.'])
    (hext : (".thrift".toList : List Char) <:+ (segsOf p).getLastD [])
    (hne : (segsOf p).getLastD [] ≠ ".thrift".toList)
    (hnp : ¬ (segsOf p <+: segsOf (dirnameStr c.thriftPath))) :
    c.importPathOf p =
      dropSuffixStr (pathRelative (dirnameStr c.thriftPath) p) ".thrift"
    ∧ basenameStr (c.importRelOf p) = basenameExtStr p ".thrift" := by
  obtain ⟨m, hm⟩ : ∃ m, (segsOf p).getLast? = some m := by
    cases h : (segsOf p).getLast? with
    | none => exact absurd (List.getLast?_eq_none_iff.mp h) hb
    | some m => exact ⟨m, rfl⟩
  have hmD : (segsOf p).getLastD [] = m := by
    simp [List.getLastD_eq_getLast?, hm]
  rw [hmD] at hext hne
  have hbs_dec : (segsOf p).dropLast ++ [m] = segsOf p :=
    List.dropLast_append_getLast? m hm
  have hm_mem : m ∈ segsOf p := by
    rw [← hbs_dec]; simp
  obtain ⟨hm_ne, hm_ns⟩ := segsOf_wf p m hm_mem
  obtain ⟨pre, hpre⟩ := hext
  have hpre_ne : pre ≠ [] := by
    intro h0
    rw [h0, List.nil_append] at hpre
    exact hne hpre.symm
  have hpre_ns : '/' ∉ pre := by
    intro hmem
    exact hm_ns (by rw [← hpre]; exact List.mem_append_left _ hmem)
  have hdrop : dropSuffixList m ".thrift".toList = pre := by
    unfold dropSuffixList
    rw [← hpre]
    have hlen : (pre ++ ".thrift".toList).length - (".thrift".toList).length
        = pre.length := by
      simp
    rw [hlen, List.take_left]
  have hbn : basenameStr p = String.mk m := by
    unfold basenameStr
    simp [List.getLastD_eq_getLast?, hm]
  have hbe : basenameExtStr p ".thrift" = String.mk pre := by
    unfold basenameExtStr
    rw [hbn]
    have hc1 : String.mk m ≠ ".thrift" := by
      intro h
      exact hne (congrArg String.toList h)
    have hc2 : (".thrift".toList).isSuffixOf (String.mk m).toList = true :=
      List.isSuffixOf_iff_suffix.mpr ⟨pre, hpre⟩
    rw [if_pos ⟨hc1, hc2⟩]
    show String.mk (dropSuffixList m ".thrift".toList) = String.mk pre
    rw [hdrop]
  set rel := relSegs (segsOf (dirnameStr c.thriftPath)) (segsOf p) with hrel
  have hwfrel : ∀ x ∈ rel, x ≠ [] ∧ '/' ∉ x := by
    intro x hx
    rcases mem_relSegs _ _ x hx with rfl | hxx
    · exact ⟨by decide, by decide⟩
    · exact segsOf_wf p x hxx
  have hr : pathRelative (dirnameStr c.thriftPath) p = String.mk (joinSegs rel) := rfl
  have hsegr : segsOf (pathRelative (dirnameStr c.thriftPath) p) = rel :=
    segsOf_joinSegs _ hwfrel
  have habs : isAbsPath (pathRelative (dirnameStr c.thriftPath) p) = false :=
    isAbsPath_joinSegs _ hwfrel
  have hrel_last : rel.getLast? = some m := (relSegs_getLast? _ _ hnp).trans hm
  have hreldec : rel.dropLast ++ [m] = rel :=
    List.dropLast_append_getLast? m hrel_last
  -- part 1: the module path, by cases on whether the relative path has a
  -- directory part
  have hpart1 : c.importPathOf p =
      dropSuffixStr (pathRelative (dirnameStr c.thriftPath) p) ".thrift"
      ∧ c.importPathOf p = String.mk (joinSegs (rel.dropLast ++ [pre])) := by
    cases hM0 : rel.dropLast with
    | nil =>
        have hrel_eq : rel = [m] := by
          have h' := hreldec
          rw [hM0] at h'
          simpa using h'.symm
        have hdir : dirnameStr (pathRelative (dirnameStr c.thriftPath) p) = "." := by
          rw [dirnameStr_of_segs _ _ (hsegr.trans hrel_eq) habs]
          simp
        have h1 : c.importPathOf p = String.mk pre := by
          unfold ThriftFileConverter.importPathOf
          rw [hdir, hbe]
          simp [pathJoin]
        have h2 : dropSuffixStr (pathRelative (dirnameStr c.thriftPath) p) ".thrift"
            = String.mk pre := by
          unfold dropSuffixStr
          have ht : (pathRelative (dirnameStr c.thriftPath) p).toList = m := by
            rw [hr, hrel_eq]
            rfl
          rw [ht, if_pos (List.isSuffixOf_iff_suffix.mpr ⟨pre, hpre⟩), hdrop]
        exact ⟨h1.trans h2.symm, by rw [h1]; rfl⟩
    | cons x M₀' =>
        have hrel_eq : rel = (x :: M₀') ++ [m] := by
          have h' := hreldec
          rw [hM0] at h'
          exact h'.symm
        have hjoin : joinSegs rel = joinSegs (x :: M₀') ++ '/' :: m := by
          rw [hrel_eq, joinSegs_append_single]
          simp
        have hdir : dirnameStr (pathRelative (dirnameStr c.thriftPath) p)
            = String.mk (joinSegs (x :: M₀')) := by
          rw [dirnameStr_of_segs _ _ (hsegr.trans hrel_eq) habs]
          rw [if_neg (by simp), List.dropLast_concat]
        have ha_ne : String.mk (joinSegs (x :: M₀')) ≠ "." := by
          intro h
          have hdata : joinSegs (x :: M₀') = ['.'] := congrArg String.toList h
          cases M₀' with
          | nil =>
              have hx_rel : x ∈ rel := by
                rw [hrel_eq]
                simp
              have hx_dot : x = ['.'] := hdata
              rcases mem_relSegs _ _ x hx_rel with h1 | h1
              · rw [hx_dot] at h1
                exact absurd h1 (by decide)
              · exact (hnorm x h1).1 hx_dot
          | cons y M'' =>
              have hsl : '/' ∈ joinSegs (x :: y :: M'') := by
                show '/' ∈ x ++ '/' :: joinSegs (y :: M'')
                exact List.mem_append_right _ (List.mem_cons_self _ _)
              rw [hdata] at hsl
              exact absurd hsl (by decide)
        have h1 : c.importPathOf p
            = String.mk (joinSegs (x :: M₀') ++ '/' :: pre) := by
          unfold ThriftFileConverter.importPathOf
          rw [hdir, hbe]
          unfold pathJoin
          rw [if_neg ha_ne]
          rfl
        have h2 : dropSuffixStr (pathRelative (dirnameStr c.thriftPath) p) ".thrift"
            = String.mk (joinSegs (x :: M₀') ++ '/' :: pre) := by
          unfold dropSuffixStr
          have ht : (pathRelative (dirnameStr c.thriftPath) p).toList
              = joinSegs (x :: M₀') ++ '/' :: m := by
            rw [hr]
            show joinSegs rel = _
            exact hjoin
          rw [ht]
          have hsuf : (".thrift".toList).isSuffixOf
              (joinSegs (x :: M₀') ++ '/' :: m) = true := by
            refine List.isSuffixOf_iff_suffix.mpr ⟨joinSegs (x :: M₀') ++ '/' :: pre, ?_⟩
            rw [← hpre]
            simp
          rw [if_pos hsuf]
          unfold dropSuffixList
          have hlen : (joinSegs (x :: M₀') ++ '/' :: m).length - (".thrift".toList).length
              = (joinSegs (x :: M₀')).length + (1 + pre.length) := by
            rw [← hpre]
            simp
            omega
          rw [hlen]
          have htake : (joinSegs (x :: M₀') ++ '/' :: m).take
              ((joinSegs (x :: M₀')).length + (1 + pre.length))
              = joinSegs (x :: M₀') ++ ('/' :: m).take (1 + pre.length) :=
            List.take_append _
          rw [htake]
          have htm : ('/' :: m).take (1 + pre.length) = '/' :: pre := by
            rw [show 1 + pre.length = pre.length + 1 from Nat.add_comm _ _]
            show ('/' :: m).take (pre.length + 1) = '/' :: pre
            rw [List.take_succ_cons]
            rw [← hpre, List.take_left]
          rw [htm]
        refine ⟨h1.trans h2.symm, ?_⟩
        rw [h1, joinSegs_append_single]
        simp
  -- part 2: the binding is the base name
  have hwfq : ∀ x ∈ rel.dropLast ++ [pre], x ≠ [] ∧ '/' ∉ x := by
    intro x hx
    rcases List.mem_append.mp hx with h | h
    · exact hwfrel x (List.dropLast_subset _ h)
    · rw [List.mem_singleton.mp h]
      exact ⟨hpre_ne, hpre_ns⟩
  have hbq : basenameStr (c.importPathOf p) = String.mk pre := by
    rw [hpart1.2]
    exact basenameStr_joinSegs _ pre hwfq
  have hsegq_ne : segsOf (c.importPathOf p) ≠ [] := by
    rw [hpart1.2, segsOf_joinSegs _ hwfq]
    simp
  refine ⟨hpart1.1, ?_⟩
  rw [hbe]
  unfold ThriftFileConverter.importRelOf
  simp only []
  cases hq : hasSlash (c.importPathOf p)
  · rw [if_neg (by simp [hq])]
    rw [basenameStr_dotSlash _ hsegq_ne, hbq]
  · rw [if_pos (by simp [hq])]
    exact hbq

/-- C7: for every file in the parser's resolved file set other than the
entry file, exactly one namespace import statement is emitted — the map
is over the filtered file list alone, independent of how many types are
referenced — whose module path is the path relative to the entry file's
directory with the `.thrift` extension stripped and a `./` prefix added
when it has no directory component, bound to the file's base name.  The
hypotheses say each non-entry path is normalised, non-empty, carries a
`.thrift` extension over a non-empty stem, and does not name a prefix of
the entry file's directory. -/
theorem c7_import_statements (c : ThriftFileConverter) (idlPaths : List String)
    (h : ∀ p ∈ idlPaths, p ≠ c.thriftPath →
      segsOf p ≠ [] ∧ (∀ s ∈ segsOf p, s ≠ ['.'] ∧ s ≠ ['.', '.'])
      ∧ ((".thrift".toList : List Char) <:+ (segsOf p).getLastD [])
      ∧ (segsOf p).getLastD [] ≠ ".thrift".toList
      ∧ ¬ (segsOf p <+: segsOf (dirnameStr c.thriftPath))) :
    c.generateImports idlPaths =
      String.intercalate "\n"
        ((idlPaths.filter (fun p => p ≠ c.thriftPath)).map c.specImportStmt)
    ∧ ((idlPaths.filter (fun p => p ≠ c.thriftPath)).map c.importStmtOf).length
        = (idlPaths.filter (fun p => p ≠ c.thriftPath)).length := by
  constructor
  · unfold ThriftFileConverter.generateImports
    refine congrArg (String.intercalate "\n") ?_
    apply List.map_congr_left
    intro p hp
    have hmem := List.mem_filter.mp hp
    have hne' : p ≠ c.thriftPath := by simpa using hmem.2
    obtain ⟨h1, h2, h3, h4, h5⟩ := h p hmem.1 hne'
    have spec := importRel_spec c p h1 h2 h3 h4 h5
    have hrel : c.importRelOf p = c.specModulePath p := by
      unfold ThriftFileConverter.importRelOf ThriftFileConverter.specModulePath
      simp only []
      rw [spec.1]
    unfold ThriftFileConverter.importStmtOf ThriftFileConverter.specImportStmt
    rw [spec.2, hrel]
  · exact List.length_map _ _

/-- Witness for C7 at a concrete converter and resolved file set: one
namespace binding per non-entry file, sibling and subdirectory paths
both rendered per the module-path rule. -/
theorem c7_import_statements_witness :
    idTFC.generateImports ["/x/a.thrift", "/x/b.thrift", "/x/sub/c.thrift"]
      = "import * as b from \x27./b.js\x27;\nimport * as c from \x27sub/c.js\x27;" := by
  have h := c7_import_statements idTFC
    ["/x/a.thrift", "/x/b.thrift", "/x/sub/c.thrift"] (by decide)
  rw [h.1]
  rfl
